import Mathlib

/-!
Shallow embedding of the deterministic in-order visitor of the compiler core
(`src/pkg/compiler/core/visitor.go`) and of the cloud architecture tables
(`src/pkg/compiler/clouds/clouds.go`), together with theorems settling the
specification's claims about traversal order, write-back behaviour and the
dual-hook composer.

Go maps are embedded as association lists whose list order models the map's
arbitrary, meaningless iteration order; the engine never iterates them
directly, it materialises and sorts the keys first, exactly as the source
does with `sort.Strings`.  Observer state (logs, counters) is threaded
explicitly through a state type `σ`.
-/

namespace Mu

/-- Modelled from the spec: `diag.Document` (outside `src/`) is an opaque
handle identifying the source artifact, threaded through calls only. -/
structure Document where
  uri : String
deriving DecidableEq, Inhabited, Repr

/-- Modelled from the spec: `diag.Sink` (outside `src/`) is an opaque
diagnostics reporting channel. -/
structure Sink where
  id : Nat
deriving DecidableEq, Inhabited, Repr

/-- Modelled from the spec: `ast.Name` (outside `src/`) is a name string. -/
abbrev Name := String

/-- Modelled from the spec: `ast.Target` (outside `src/`), a named
build/deploy target; its target-specific fields are abstracted into one. -/
structure Target where
  info : String
deriving DecidableEq, Inhabited, Repr

/-- Modelled from the spec: `ast.Parameter` (outside `src/`), a named
configurable input with type/default fields (`ptype` models the type field,
which cannot share Lean's keyword spelling). -/
structure Parameter where
  ptype : String
  defaultValue : String
deriving DecidableEq, Inhabited, Repr

/-- Modelled from the spec: `ast.Dependency` (outside `src/`), a named
reference to another stack with version/source fields. -/
structure Dependency where
  version : String
deriving DecidableEq, Inhabited, Repr

/-- Modelled from the spec: `ast.Service` (outside `src/`), a deployable
component; its service-specific fields are abstracted into one. -/
structure Service where
  info : String
deriving DecidableEq, Inhabited, Repr

/-- Modelled from the spec: `ast.Metadata` (outside `src/`), the descriptive
header owning the name-to-Target mapping (the kind tag is passed alongside,
not stored). -/
structure Metadata where
  Targets : List (String × Target)
deriving DecidableEq, Inhabited, Repr

/-- Modelled from the spec: `ast.Services` (outside `src/`), the container
separating public from private services. -/
structure Services where
  Public : List (Name × Service)
  Private : List (Name × Service)
deriving DecidableEq, Inhabited, Repr

/-- Modelled from the spec: `ast.Stack` (outside `src/`), the root deployable
unit owning its metadata, parameters, dependencies and services. -/
structure Stack where
  Metadata : Metadata
  Parameters : List (String × Parameter)
  Dependencies : List (Name × Dependency)
  Services : Services
deriving DecidableEq, Inhabited, Repr

/-- Keys of an association-list map, in the list's own (meaningless) order. -/
def keysOf (m : List (κ × α)) : List κ :=
  m.map Prod.fst

/-- Go map read returning an `Option`; first matching key wins (keys are
unique in well-formed maps, so this is the unique binding). -/
def lookup? [DecidableEq κ] : List (κ × α) → κ → Option α
  | [], _ => none
  | (k', v) :: m, k => if k' = k then some v else lookup? m k

/-- Go map read `m[k]`: the bound value, or the zero value when absent. -/
def lookupD [DecidableEq κ] [Inhabited α] (m : List (κ × α)) (k : κ) : α :=
  (lookup? m k).getD default

/-- Go map write `m[k] = v`: overwrite the binding, or add one when absent. -/
def update [DecidableEq κ] : List (κ × α) → κ → α → List (κ × α)
  | [], k, v => [(k, v)]
  | (k', v') :: m, k, v => if k' = k then (k', v) :: m else (k', v') :: update m k v

/-- Byte-wise ascending comparison of two strings, as `sort.Strings`
compares (UTF-8 byte order coincides with code-point order). -/
def strLeb (a b : String) : Bool :=
  decide (a.toList ≤ b.toList)

/-- Insert a string into an already sorted list, keeping it sorted. -/
def insertSorted (x : String) : List String → List String
  | [] => [x]
  | y :: ys => if strLeb x y then x :: y :: ys else y :: insertSorted x ys

/-- The source's `sort.Strings`: byte-wise ascending sort of the key slice
(insertion sort; any sort yields the same list by uniqueness of sorting). -/
def sortStrings : List String → List String
  | [] => []
  | x :: xs => insertSorted x (sortStrings xs)

/-- The per-mapping loop body the source repeats for every mapping: walk a
key list, read the entry, visit it, and write the (possibly updated) value
back at the same key before advancing. -/
def visitKeys [Inhabited α] (visit : String → α → σ → α × σ) :
    List String → List (String × α) → σ → List (String × α) × σ
  | [], m, s => (m, s)
  | k :: ks, m, s =>
    let r := visit k (lookupD m k) s
    visitKeys visit ks (update m k r.1) r.2

/-- Collect a mapping's keys, sort them, then visit each entry in sorted
order with write-back — the pattern every mapping loop in the source uses. -/
def visitEach [Inhabited α] (visit : String → α → σ → α × σ)
    (m : List (String × α)) (s : σ) : List (String × α) × σ :=
  visitKeys visit (sortStrings (keysOf m)) m s

/-- Visitor unifies all visitation patterns under a single interface
(including the `Phase` diagnostics accessor `Diag`).  Each method returns the
possibly-mutated record together with the observer's updated state, which
models mutation through the Go pointer plus observer-internal effects. -/
structure Visitor (σ : Type) where
  Diag : Option Sink
  VisitMetadata : Document → String → Metadata → σ → Metadata × σ
  VisitStack : Document → Stack → σ → Stack × σ
  VisitParameter : Document → String → Parameter → σ → Parameter × σ
  VisitDependency : Document → Name → Dependency → σ → Dependency × σ
  VisitServices : Document → Services → σ → Services × σ
  VisitService : Document → Name → Bool → Service → σ → Service × σ
  VisitTarget : Document → String → Target → σ → Target × σ

/-- Invoke an optional observer: call through when present, identity when
absent (the `if v.pre != nil` pattern of the source). -/
def applyHook (o : Option (Visitor σ)) (call : Visitor σ → α → σ → α × σ)
    (a : α) (s : σ) : α × σ :=
  match o with
  | some w => call w a s
  | none => (a, s)

/-- The composed visitor: wraps an optional pre and an optional post
observer, walking the tree in a deterministic order. -/
structure inOrderVisitor (σ : Type) where
  pre : Option (Visitor σ)
  post : Option (Visitor σ)

/-- Diag of the composed visitor: the pre observer's sink when pre is
present, else the post observer's, else absent. -/
def inOrderVisitor.Diag (v : inOrderVisitor σ) : Option Sink :=
  match v.pre with
  | some p => p.Diag
  | none =>
    match v.post with
    | some q => q.Diag
    | none => none

/-- Composed `VisitTarget`: pre hook, then post hook, both on the same
record reference. -/
def inOrderVisitor.VisitTarget (v : inOrderVisitor σ) (doc : Document)
    (name : String) (target : Target) (s : σ) : Target × σ :=
  let r1 := applyHook v.pre (fun o => o.VisitTarget doc name) target s
  applyHook v.post (fun o => o.VisitTarget doc name) r1.1 r1.2

/-- Composed `VisitParameter`: pre hook, then post hook. -/
def inOrderVisitor.VisitParameter (v : inOrderVisitor σ) (doc : Document)
    (name : String) (param : Parameter) (s : σ) : Parameter × σ :=
  let r1 := applyHook v.pre (fun o => o.VisitParameter doc name) param s
  applyHook v.post (fun o => o.VisitParameter doc name) r1.1 r1.2

/-- Composed `VisitDependency`: pre hook, then post hook. -/
def inOrderVisitor.VisitDependency (v : inOrderVisitor σ) (doc : Document)
    (name : Name) (dep : Dependency) (s : σ) : Dependency × σ :=
  let r1 := applyHook v.pre (fun o => o.VisitDependency doc name) dep s
  applyHook v.post (fun o => o.VisitDependency doc name) r1.1 r1.2

/-- Composed `VisitService`: pre hook, then post hook. -/
def inOrderVisitor.VisitService (v : inOrderVisitor σ) (doc : Document)
    (name : Name) (public : Bool) (svc : Service) (s : σ) : Service × σ :=
  let r1 := applyHook v.pre (fun o => o.VisitService doc name public) svc s
  applyHook v.post (fun o => o.VisitService doc name public) r1.1 r1.2

/-- Composed `VisitMetadata`: pre hook, then every Target in sorted key order
with write-back, then post hook. -/
def inOrderVisitor.VisitMetadata (v : inOrderVisitor σ) (doc : Document)
    (kind : String) (meta : Metadata) (s : σ) : Metadata × σ :=
  let r1 := applyHook v.pre (fun o => o.VisitMetadata doc kind) meta s
  let t := visitEach (fun name target s => v.VisitTarget doc name target s)
    r1.1.Targets r1.2
  let m2 : Metadata := { r1.1 with Targets := t.1 }
  applyHook v.post (fun o => o.VisitMetadata doc kind) m2 t.2

/-- Composed `VisitServices`: every Public service in sorted key order with
write-back, then every Private service in sorted key order with write-back.
Faithful to the source, this method invokes no pre or post hook of its own. -/
def inOrderVisitor.VisitServices (v : inOrderVisitor σ) (doc : Document)
    (svcs : Services) (s : σ) : Services × σ :=
  let pu := visitEach (fun name svc s => v.VisitService doc name true svc s)
    svcs.Public s
  let sv1 : Services := { svcs with Public := pu.1 }
  let pr := visitEach (fun name svc s => v.VisitService doc name false svc s)
    sv1.Private pu.2
  let sv2 : Services := { sv1 with Private := pr.1 }
  (sv2, pr.2)

/-- Composed `VisitStack`, the single top-level entry point: pre hook,
Metadata (kind "Stack"), Parameters in sorted order, Dependencies in sorted
order, Services, post hook. -/
def inOrderVisitor.VisitStack (v : inOrderVisitor σ) (doc : Document)
    (stack : Stack) (s : σ) : Stack × σ :=
  let r1 := applyHook v.pre (fun o => o.VisitStack doc) stack s
  let m := v.VisitMetadata doc "Stack" r1.1.Metadata r1.2
  let st2 : Stack := { r1.1 with Metadata := m.1 }
  let pa := visitEach (fun name param s => v.VisitParameter doc name param s)
    st2.Parameters m.2
  let st3 : Stack := { st2 with Parameters := pa.1 }
  let de := visitEach (fun name dep s => v.VisitDependency doc name dep s)
    st3.Dependencies pa.2
  let st4 : Stack := { st3 with Dependencies := de.1 }
  let sv := v.VisitServices doc st4.Services de.2
  let st5 : Stack := { st4 with Services := sv.1 }
  applyHook v.post (fun o => o.VisitStack doc) st5 sv.2

/-- NewInOrderVisitor wraps a pre and a post observer (either may be absent)
into a single Visitor walking the tree in a deterministic order. -/
def NewInOrderVisitor (pre : Option (Visitor σ)) (post : Option (Visitor σ)) :
    Visitor σ :=
  { Diag := inOrderVisitor.Diag ⟨pre, post⟩
    VisitMetadata := fun doc kind meta s =>
      inOrderVisitor.VisitMetadata ⟨pre, post⟩ doc kind meta s
    VisitStack := fun doc stack s =>
      inOrderVisitor.VisitStack ⟨pre, post⟩ doc stack s
    VisitParameter := fun doc name param s =>
      inOrderVisitor.VisitParameter ⟨pre, post⟩ doc name param s
    VisitDependency := fun doc name dep s =>
      inOrderVisitor.VisitDependency ⟨pre, post⟩ doc name dep s
    VisitServices := fun doc svcs s =>
      inOrderVisitor.VisitServices ⟨pre, post⟩ doc svcs s
    VisitService := fun doc name public svc s =>
      inOrderVisitor.VisitService ⟨pre, post⟩ doc name public svc s
    VisitTarget := fun doc name target s =>
      inOrderVisitor.VisitTarget ⟨pre, post⟩ doc name target s }

/-- Arch selects a cloud infrastructure to target when compiling
(`src/pkg/compiler/clouds/clouds.go`). -/
inductive Arch where
  | NoArch
  | AWSArch
  | GCPArch
  | AzureArch
  | VMWareArch
deriving DecidableEq, Inhabited, Repr

/-- ArchMap maps human-friendly names to the Archs for those names. -/
def ArchMap : List (String × Arch) :=
  [("", .NoArch), ("aws", .AWSArch), ("gcp", .GCPArch),
   ("azure", .AzureArch), ("vmware", .VMWareArch)]

/-- ArchNames maps Archs to human-friendly names. -/
def ArchNames : List (Arch × String) :=
  [(.NoArch, ""), (.AWSArch, "aws"), (.GCPArch, "gcp"),
   (.AzureArch, "azure"), (.VMWareArch, "vmware")]

/-- Which of the two composed hooks produced a log event. -/
inductive Hook where
  | pre
  | post
deriving DecidableEq, Repr

/-- Observable events a logging observer records, one per visit call it
receives. -/
inductive VisitEvent where
  | metadata (h : Hook) (kind : String)
  | stack (h : Hook)
  | parameter (h : Hook) (name : String)
  | dependency (h : Hook) (name : String)
  | services (h : Hook)
  | service (h : Hook) (name : String) (public : Bool)
  | target (h : Hook) (name : String)
deriving DecidableEq, Repr

/-- A non-mutating observer that appends one event, tagged `h`, to the log
for every visit call it receives. -/
def logVisitor (h : Hook) : Visitor (List VisitEvent) where
  Diag := none
  VisitMetadata := fun _ kind meta s => (meta, s ++ [.metadata h kind])
  VisitStack := fun _ stack s => (stack, s ++ [.stack h])
  VisitParameter := fun _ name param s => (param, s ++ [.parameter h name])
  VisitDependency := fun _ name dep s => (dep, s ++ [.dependency h name])
  VisitServices := fun _ svcs s => (svcs, s ++ [.services h])
  VisitService := fun _ name public svc s => (svc, s ++ [.service h name public])
  VisitTarget := fun _ name target s => (target, s ++ [.target h name])

/-- An optional hook slot filled with the corresponding logging observer. -/
def hookVisitor (o : Option Hook) : Option (Visitor (List VisitEvent)) :=
  o.map logVisitor

/-- Events an optional hook slot contributes at one visit point. -/
def hookEvents (o : Option Hook) (f : Hook → VisitEvent) : List VisitEvent :=
  match o with
  | some h => [f h]
  | none => []

/-- Events of one leaf visit: the pre slot's event then the post slot's. -/
def pairTrace (P Q : Option Hook) (f : Hook → VisitEvent) : List VisitEvent :=
  hookEvents P f ++ hookEvents Q f

/-- Events of a whole mapping loop over the given key list. -/
def eachTrace (P Q : Option Hook) (ks : List String)
    (f : Hook → String → VisitEvent) : List VisitEvent :=
  ks.flatMap fun k => pairTrace P Q (fun h => f h k)

/-- Expected log of the composed `VisitMetadata` with logging observers in
the slots `P` and `Q`. -/
def metadataTrace (P Q : Option Hook) (kind : String) (meta : Metadata) :
    List VisitEvent :=
  hookEvents P (fun h => .metadata h kind) ++
  eachTrace P Q (sortStrings (keysOf meta.Targets)) (fun h k => .target h k) ++
  hookEvents Q (fun h => .metadata h kind)

/-- Expected log of the composed `VisitServices`: all public services in
sorted order, then all private services in sorted order, and no
metadata-style bracket events of its own. -/
def servicesTrace (P Q : Option Hook) (svcs : Services) : List VisitEvent :=
  eachTrace P Q (sortStrings (keysOf svcs.Public)) (fun h k => .service h k true) ++
  eachTrace P Q (sortStrings (keysOf svcs.Private)) (fun h k => .service h k false)

/-- Expected log of the composed `VisitStack`: pre bracket, metadata (kind
"Stack"), parameters, dependencies, services, post bracket. -/
def stackTrace (P Q : Option Hook) (stack : Stack) : List VisitEvent :=
  hookEvents P (fun h => .stack h) ++
  metadataTrace P Q "Stack" stack.Metadata ++
  eachTrace P Q (sortStrings (keysOf stack.Parameters)) (fun h k => .parameter h k) ++
  eachTrace P Q (sortStrings (keysOf stack.Dependencies)) (fun h k => .dependency h k) ++
  servicesTrace P Q stack.Services ++
  hookEvents Q (fun h => .stack h)

/-- The hook tag carried by a log event. -/
def hookOf : VisitEvent → Hook
  | .metadata h _ => h
  | .stack h => h
  | .parameter h _ => h
  | .dependency h _ => h
  | .services h => h
  | .service h _ _ => h
  | .target h _ => h

/-- Picks the name of a pre-hook target visit out of a log event. -/
def pickTarget : VisitEvent → Option String
  | .target .pre n => some n
  | _ => none

/-- Picks the name of a pre-hook parameter visit out of a log event. -/
def pickParam : VisitEvent → Option String
  | .parameter .pre n => some n
  | _ => none

/-- Picks the name of a pre-hook dependency visit out of a log event. -/
def pickDep : VisitEvent → Option String
  | .dependency .pre n => some n
  | _ => none

/-- Picks the name of a pre-hook public-service visit out of a log event. -/
def pickPublic : VisitEvent → Option String
  | .service .pre n true => some n
  | _ => none

/-- Picks the name of a pre-hook private-service visit out of a log event. -/
def pickPrivate : VisitEvent → Option String
  | .service .pre n false => some n
  | _ => none

/-- Names of target visits, in log order. -/
def targetNamesOf (log : List VisitEvent) : List String :=
  log.filterMap pickTarget

/-- Names of parameter visits, in log order. -/
def paramNamesOf (log : List VisitEvent) : List String :=
  log.filterMap pickParam

/-- Names of dependency visits, in log order. -/
def depNamesOf (log : List VisitEvent) : List String :=
  log.filterMap pickDep

/-- Names of public-service visits, in log order. -/
def publicNamesOf (log : List VisitEvent) : List String :=
  log.filterMap pickPublic

/-- Names of private-service visits, in log order. -/
def privateNamesOf (log : List VisitEvent) : List String :=
  log.filterMap pickPrivate

/-- Two stacks whose five mappings hold the same key-value bindings,
presented in different (arbitrary) underlying map iteration orders. -/
def MappingsPerm (s₁ s₂ : Stack) : Prop :=
  List.Perm s₁.Metadata.Targets s₂.Metadata.Targets ∧
  List.Perm s₁.Parameters s₂.Parameters ∧
  List.Perm s₁.Dependencies s₂.Dependencies ∧
  List.Perm s₁.Services.Public s₂.Services.Public ∧
  List.Perm s₁.Services.Private s₂.Services.Private

/-- An observer that never mutates the record it is handed, whatever its
internal state does (the record component of every method is the
identity). -/
def NonMutating {σ : Type} (v : Visitor σ) : Prop :=
  (∀ doc kind meta s, (v.VisitMetadata doc kind meta s).1 = meta) ∧
  (∀ doc stack s, (v.VisitStack doc stack s).1 = stack) ∧
  (∀ doc name param s, (v.VisitParameter doc name param s).1 = param) ∧
  (∀ doc name dep s, (v.VisitDependency doc name dep s).1 = dep) ∧
  (∀ doc svcs s, (v.VisitServices doc svcs s).1 = svcs) ∧
  (∀ doc name public svc s, (v.VisitService doc name public svc s).1 = svc) ∧
  (∀ doc name target s, (v.VisitTarget doc name target s).1 = target)

/-- A fixed document handle for concrete instances. -/
def doc0 : Document := ⟨"Mu.yaml"⟩

/-- A Services value with a single public service, used as concrete input. -/
def svcs0 : Services := ⟨[("a", ⟨"svc"⟩)], []⟩

/-- A stack whose parameter keys arrive in underlying order b, a, c. -/
def stackA : Stack :=
  { Metadata := ⟨[("t2", ⟨"x"⟩), ("t1", ⟨"y"⟩)]⟩
    Parameters := [("b", ⟨"int", "1"⟩), ("a", ⟨"str", "2"⟩), ("c", ⟨"bool", "3"⟩)]
    Dependencies := [("d2", ⟨"v2"⟩), ("d1", ⟨"v1"⟩)]
    Services := ⟨[("z", ⟨"pub"⟩)], [("a", ⟨"priv"⟩)]⟩ }

/-- The same stack with every mapping presented in a different order. -/
def stackB : Stack :=
  { Metadata := ⟨[("t1", ⟨"y"⟩), ("t2", ⟨"x"⟩)]⟩
    Parameters := [("a", ⟨"str", "2"⟩), ("c", ⟨"bool", "3"⟩), ("b", ⟨"int", "1"⟩)]
    Dependencies := [("d1", ⟨"v1"⟩), ("d2", ⟨"v2"⟩)]
    Services := ⟨[("z", ⟨"pub"⟩)], [("a", ⟨"priv"⟩)]⟩ }

/-- An observer that appends a marker to every leaf record it visits,
leaving container records untouched. -/
def bumpVisitor : Visitor Unit where
  Diag := none
  VisitMetadata := fun _ _ meta s => (meta, s)
  VisitStack := fun _ stack s => (stack, s)
  VisitParameter := fun _ _ param s =>
    ({ param with defaultValue := param.defaultValue ++ "!" }, s)
  VisitDependency := fun _ _ dep s => ({ dep with version := dep.version ++ "!" }, s)
  VisitServices := fun _ svcs s => (svcs, s)
  VisitService := fun _ _ _ svc s => ({ svc with info := svc.info ++ "!" }, s)
  VisitTarget := fun _ _ target s => ({ target with info := target.info ++ "!" }, s)

/-- An observer that appends a second marker to every leaf record,
leaving container records untouched. -/
def markVisitor : Visitor Unit where
  Diag := none
  VisitMetadata := fun _ _ meta s => (meta, s)
  VisitStack := fun _ stack s => (stack, s)
  VisitParameter := fun _ _ param s =>
    ({ param with defaultValue := param.defaultValue ++ "?" }, s)
  VisitDependency := fun _ _ dep s => ({ dep with version := dep.version ++ "?" }, s)
  VisitServices := fun _ svcs s => (svcs, s)
  VisitService := fun _ _ _ svc s => ({ svc with info := svc.info ++ "?" }, s)
  VisitTarget := fun _ _ target s => ({ target with info := target.info ++ "?" }, s)

theorem keysOf_nil : keysOf ([] : List (κ × α)) = [] := rfl

theorem keysOf_cons (k : κ) (v : α) (m : List (κ × α)) :
    keysOf ((k, v) :: m) = k :: keysOf m := rfl

theorem lookup?_update_self [DecidableEq κ] (v : α) :
    ∀ (m : List (κ × α)) (k : κ), lookup? (update m k v) k = some v := by
  intro m
  induction m with
  | nil => intro k; simp [update, lookup?]
  | cons p m ih =>
    obtain ⟨k', v'⟩ := p
    intro k
    by_cases h : k' = k
    · simp [update, h, lookup?]
    · simp [update, h, lookup?, ih k]

theorem lookup?_update_ne [DecidableEq κ] (v : α) {k k' : κ} (h : k' ≠ k) :
    ∀ (m : List (κ × α)), lookup? (update m k v) k' = lookup? m k' := by
  intro m
  induction m with
  | nil =>
    have hne : ¬ k = k' := fun hh => h hh.symm
    simp [update, lookup?, hne]
  | cons p m ih =>
    obtain ⟨k₁, v₁⟩ := p
    by_cases hk : k₁ = k
    · subst hk
      have hne : ¬ k₁ = k' := fun hh => h hh.symm
      simp [update, lookup?, hne]
    · simp [update, hk, lookup?, ih]

theorem keysOf_update [DecidableEq κ] (v : α) :
    ∀ (m : List (κ × α)) (k : κ), k ∈ keysOf m →
      keysOf (update m k v) = keysOf m := by
  intro m
  induction m with
  | nil => intro k h; simp [keysOf_nil] at h
  | cons p m ih =>
    obtain ⟨k₁, v₁⟩ := p
    intro k h
    by_cases hk : k₁ = k
    · simp [update, hk, keysOf_cons]
    · have h' : k ∈ keysOf m := by
        rcases List.mem_cons.mp (by simpa [keysOf_cons] using h) with hh | hh
        · exact absurd hh.symm hk
        · exact hh
      simp [update, hk, keysOf_cons, ih k h']

theorem update_lookupD [DecidableEq κ] [Inhabited α] :
    ∀ (m : List (κ × α)) (k : κ), k ∈ keysOf m →
      update m k (lookupD m k) = m := by
  intro m
  induction m with
  | nil => intro k h; simp [keysOf_nil] at h
  | cons p m ih =>
    obtain ⟨k₁, v₁⟩ := p
    intro k h
    by_cases hk : k₁ = k
    · simp [update, hk, lookupD, lookup?]
    · have h' : k ∈ keysOf m := by
        rcases List.mem_cons.mp (by simpa [keysOf_cons] using h) with hh | hh
        · exact absurd hh.symm hk
        · exact hh
      have hv : lookupD ((k₁, v₁) :: m) k = lookupD m k := by
        simp [lookupD, lookup?, hk]
      rw [hv]
      simp only [update, if_neg hk]
      rw [ih k h']

theorem lookup?_mem [DecidableEq κ] {v : α} :
    ∀ {m : List (κ × α)} {k : κ}, lookup? m k = some v → k ∈ keysOf m := by
  intro m
  induction m with
  | nil => intro k h; simp [lookup?] at h
  | cons p m ih =>
    obtain ⟨k₁, v₁⟩ := p
    intro k h
    by_cases hk : k₁ = k
    · simp [keysOf_cons, hk]
    · simp only [lookup?, if_neg hk] at h
      exact List.mem_cons_of_mem _ (ih h)

theorem lookupD_eq [DecidableEq κ] [Inhabited α] {m : List (κ × α)} {k : κ}
    {v : α} (h : lookup? m k = some v) : lookupD m k = v := by
  simp [lookupD, h]

theorem strLeb_iff (a b : String) : strLeb a b = true ↔ a ≤ b := by
  rw [String.le_iff_toList_le]
  exact decide_eq_true_iff

theorem insertSorted_perm (x : String) :
    ∀ l : List String, List.Perm (insertSorted x l) (x :: l) := by
  intro l
  induction l with
  | nil => simp [insertSorted]
  | cons y ys ih =>
    by_cases hb : strLeb x y = true
    · simp [insertSorted, hb]
    · simp only [insertSorted, hb, if_false, Bool.false_eq_true]
      exact (ih.cons y).trans (List.Perm.swap x y ys)

theorem sorted_insertSorted (x : String) :
    ∀ {l : List String}, List.Sorted (· ≤ ·) l →
      List.Sorted (· ≤ ·) (insertSorted x l) := by
  intro l
  induction l with
  | nil => intro _; simp [insertSorted]
  | cons y ys ih =>
    intro hs
    rw [List.sorted_cons] at hs
    obtain ⟨hy, hys⟩ := hs
    by_cases hb : strLeb x y = true
    · have hxy : x ≤ y := (strLeb_iff x y).mp hb
      simp only [insertSorted, hb, if_true]
      rw [List.sorted_cons]
      refine ⟨?_, ?_⟩
      · intro b hb'
        rcases List.mem_cons.mp hb' with rfl | hmem
        · exact hxy
        · exact le_trans hxy (hy b hmem)
      · rw [List.sorted_cons]
        exact ⟨hy, hys⟩
    · have hyx : y ≤ x := by
        have hnot : ¬ x ≤ y := fun hle => hb ((strLeb_iff x y).mpr hle)
        exact le_of_not_le hnot
      simp only [insertSorted, hb, if_false, Bool.false_eq_true]
      rw [List.sorted_cons]
      refine ⟨?_, ih hys⟩
      intro b hb'
      rcases List.mem_cons.mp ((insertSorted_perm x ys).mem_iff.mp hb') with rfl | hmem
      · exact hyx
      · exact hy b hmem

theorem sortStrings_perm (l : List String) : List.Perm (sortStrings l) l := by
  induction l with
  | nil => simp [sortStrings]
  | cons x xs ih =>
    exact (insertSorted_perm x (sortStrings xs)).trans (ih.cons x)

theorem sortStrings_sorted (l : List String) :
    List.Sorted (· ≤ ·) (sortStrings l) := by
  induction l with
  | nil => simp [sortStrings]
  | cons x xs ih => exact sorted_insertSorted x ih

theorem mem_sortStrings {l : List String} {k : String} :
    k ∈ sortStrings l ↔ k ∈ l :=
  (sortStrings_perm l).mem_iff

theorem sortStrings_nodup {l : List String} (h : l.Nodup) :
    (sortStrings l).Nodup :=
  ((sortStrings_perm l).nodup_iff).mpr h

theorem sortStrings_eq_of_perm {l₁ l₂ : List String} (h : List.Perm l₁ l₂) :
    sortStrings l₁ = sortStrings l₂ :=
  List.eq_of_perm_of_sorted
    ((sortStrings_perm l₁).trans (h.trans (sortStrings_perm l₂).symm))
    (sortStrings_sorted l₁) (sortStrings_sorted l₂)

theorem visitKeys_log [Inhabited α] {E : Type}
    {visit : String → α → List E → α × List E} {ev : String → List E}
    (hv : ∀ k val s, visit k val s = (val, s ++ ev k)) :
    ∀ (ks : List String) (m : List (String × α)) (s : List E),
      (∀ k ∈ ks, k ∈ keysOf m) →
      visitKeys visit ks m s = (m, s ++ ks.flatMap ev) := by
  intro ks
  induction ks with
  | nil => intro m s _; simp [visitKeys]
  | cons k ks ih =>
    intro m s hk
    have hkm : k ∈ keysOf m := hk k (by simp)
    have step : visitKeys visit (k :: ks) m s =
        visitKeys visit ks (update m k (lookupD m k)) (s ++ ev k) := by
      simp [visitKeys, hv]
    rw [step, update_lookupD m k hkm,
      ih m (s ++ ev k) (fun k' h' => hk k' (by simp [h']))]
    simp

theorem visitKeys_not_mem [Inhabited α] {visit : String → α → σ → α × σ} :
    ∀ {ks : List String} {m : List (String × α)} {s : σ} {k : String},
      k ∉ ks → lookup? (visitKeys visit ks m s).1 k = lookup? m k := by
  intro ks
  induction ks with
  | nil => intro m s k _; simp [visitKeys]
  | cons k₁ ks ih =>
    intro m s k hk
    have hne : k ≠ k₁ := fun h => hk (by simp [h])
    have hrest : k ∉ ks := fun h => hk (by simp [h])
    simp only [visitKeys]
    rw [ih hrest, lookup?_update_ne _ hne]

theorem visitKeys_content [Inhabited α] {visit : String → α → σ → α × σ}
    {g : String → α → α} (hv : ∀ k val s, (visit k val s).1 = g k val) :
    ∀ {ks : List String} {m : List (String × α)} {s : σ} {k : String} {v : α},
      ks.Nodup → k ∈ ks → lookup? m k = some v →
      lookup? (visitKeys visit ks m s).1 k = some (g k v) := by
  intro ks
  induction ks with
  | nil => intro m s k v _ hm _; simp at hm
  | cons k₁ ks ih =>
    intro m s k v hnd hm hl
    by_cases hk : k₁ = k
    · subst hk
      have hout : k₁ ∉ ks := (List.nodup_cons.mp hnd).1
      simp only [visitKeys]
      rw [visitKeys_not_mem hout, hv, lookupD_eq hl, lookup?_update_self]
    · have hm' : k ∈ ks := by
        rcases List.mem_cons.mp hm with h | h
        · exact absurd h.symm hk
        · exact h
      simp only [visitKeys]
      have hl' : lookup? (update m k₁ (visit k₁ (lookupD m k₁) s).1) k = some v := by
        rw [lookup?_update_ne _ (fun hh : k = k₁ => hk hh.symm)]
        exact hl
      exact ih (List.nodup_cons.mp hnd).2 hm' hl'

theorem visitKeys_keysOf [Inhabited α] {visit : String → α → σ → α × σ} :
    ∀ {ks : List String} {m : List (String × α)} {s : σ},
      (∀ k ∈ ks, k ∈ keysOf m) →
      keysOf (visitKeys visit ks m s).1 = keysOf m := by
  intro ks
  induction ks with
  | nil => intro m s _; simp [visitKeys]
  | cons k ks ih =>
    intro m s hk
    have hkm : k ∈ keysOf m := hk k (by simp)
    simp only [visitKeys]
    rw [ih, keysOf_update _ _ _ hkm]
    intro k' h'
    rw [keysOf_update _ _ _ hkm]
    exact hk k' (by simp [h'])

theorem visitKeys_id [Inhabited α] {visit : String → α → σ → α × σ}
    (hv : ∀ k val s, (visit k val s).1 = val) :
    ∀ {ks : List String} {m : List (String × α)} {s : σ},
      (∀ k ∈ ks, k ∈ keysOf m) → (visitKeys visit ks m s).1 = m := by
  intro ks
  induction ks with
  | nil => intro m s _; simp [visitKeys]
  | cons k ks ih =>
    intro m s hk
    have hkm : k ∈ keysOf m := hk k (by simp)
    simp only [visitKeys, hv]
    rw [update_lookupD m k hkm]
    exact ih (fun k' h' => hk k' (by simp [h']))

theorem visitEach_log [Inhabited α] {E : Type}
    {visit : String → α → List E → α × List E} {ev : String → List E}
    (hv : ∀ k val s, visit k val s = (val, s ++ ev k))
    (m : List (String × α)) (s : List E) :
    visitEach visit m s = (m, s ++ (sortStrings (keysOf m)).flatMap ev) :=
  visitKeys_log hv _ m s (fun _ hk => mem_sortStrings.mp hk)

theorem visitEach_content [Inhabited α] {visit : String → α → σ → α × σ}
    {g : String → α → α} (hv : ∀ k val s, (visit k val s).1 = g k val)
    {m : List (String × α)} {s : σ} {k : String} {v : α}
    (hnd : (keysOf m).Nodup) (hl : lookup? m k = some v) :
    lookup? (visitEach visit m s).1 k = some (g k v) :=
  visitKeys_content hv (sortStrings_nodup hnd)
    (mem_sortStrings.mpr (lookup?_mem hl)) hl

theorem visitEach_keysOf [Inhabited α] {visit : String → α → σ → α × σ}
    (m : List (String × α)) (s : σ) :
    keysOf (visitEach visit m s).1 = keysOf m :=
  visitKeys_keysOf (fun _ hk => mem_sortStrings.mp hk)

theorem visitEach_id [Inhabited α] {visit : String → α → σ → α × σ}
    (hv : ∀ k val s, (visit k val s).1 = val) (m : List (String × α)) (s : σ) :
    (visitEach visit m s).1 = m :=
  visitKeys_id hv (fun _ hk => mem_sortStrings.mp hk)

theorem target_log (P Q : Option Hook) (doc : Document) (name : String)
    (target : Target) (s : List VisitEvent) :
    inOrderVisitor.VisitTarget ⟨hookVisitor P, hookVisitor Q⟩ doc name target s =
      (target, s ++ pairTrace P Q (fun h => .target h name)) := by
  cases P <;> cases Q <;>
    simp [inOrderVisitor.VisitTarget, applyHook, hookVisitor, logVisitor,
      pairTrace, hookEvents]

theorem parameter_log (P Q : Option Hook) (doc : Document) (name : String)
    (param : Parameter) (s : List VisitEvent) :
    inOrderVisitor.VisitParameter ⟨hookVisitor P, hookVisitor Q⟩ doc name param s =
      (param, s ++ pairTrace P Q (fun h => .parameter h name)) := by
  cases P <;> cases Q <;>
    simp [inOrderVisitor.VisitParameter, applyHook, hookVisitor, logVisitor,
      pairTrace, hookEvents]

theorem dependency_log (P Q : Option Hook) (doc : Document) (name : Name)
    (dep : Dependency) (s : List VisitEvent) :
    inOrderVisitor.VisitDependency ⟨hookVisitor P, hookVisitor Q⟩ doc name dep s =
      (dep, s ++ pairTrace P Q (fun h => .dependency h name)) := by
  cases P <;> cases Q <;>
    simp [inOrderVisitor.VisitDependency, applyHook, hookVisitor, logVisitor,
      pairTrace, hookEvents]

theorem service_log (P Q : Option Hook) (doc : Document) (name : Name)
    (public : Bool) (svc : Service) (s : List VisitEvent) :
    inOrderVisitor.VisitService ⟨hookVisitor P, hookVisitor Q⟩ doc name public svc s =
      (svc, s ++ pairTrace P Q (fun h => .service h name public)) := by
  cases P <;> cases Q <;>
    simp [inOrderVisitor.VisitService, applyHook, hookVisitor, logVisitor,
      pairTrace, hookEvents]

theorem applyHook_metadata_log (P : Option Hook) (doc : Document) (kind : String)
    (meta : Metadata) (s : List VisitEvent) :
    applyHook (hookVisitor P) (fun o => o.VisitMetadata doc kind) meta s =
      (meta, s ++ hookEvents P (fun h => .metadata h kind)) := by
  cases P <;> simp [applyHook, hookVisitor, logVisitor, hookEvents]

theorem applyHook_stack_log (P : Option Hook) (doc : Document) (stack : Stack)
    (s : List VisitEvent) :
    applyHook (hookVisitor P) (fun o => o.VisitStack doc) stack s =
      (stack, s ++ hookEvents P (fun h => .stack h)) := by
  cases P <;> simp [applyHook, hookVisitor, logVisitor, hookEvents]

theorem metadata_log (P Q : Option Hook) (doc : Document) (kind : String)
    (meta : Metadata) (s : List VisitEvent) :
    inOrderVisitor.VisitMetadata ⟨hookVisitor P, hookVisitor Q⟩ doc kind meta s =
      (meta, s ++ metadataTrace P Q kind meta) := by
  simp only [inOrderVisitor.VisitMetadata, applyHook_metadata_log,
    visitEach_log (fun k val s => target_log P Q doc k val s),
    metadataTrace, eachTrace, List.append_assoc]

theorem services_log (P Q : Option Hook) (doc : Document) (svcs : Services)
    (s : List VisitEvent) :
    inOrderVisitor.VisitServices ⟨hookVisitor P, hookVisitor Q⟩ doc svcs s =
      (svcs, s ++ servicesTrace P Q svcs) := by
  simp only [inOrderVisitor.VisitServices,
    visitEach_log (fun k val s => service_log P Q doc k true val s),
    visitEach_log (fun k val s => service_log P Q doc k false val s),
    servicesTrace, eachTrace, List.append_assoc]

theorem stack_log (P Q : Option Hook) (doc : Document) (stack : Stack)
    (s : List VisitEvent) :
    inOrderVisitor.VisitStack ⟨hookVisitor P, hookVisitor Q⟩ doc stack s =
      (stack, s ++ stackTrace P Q stack) := by
  simp only [inOrderVisitor.VisitStack, applyHook_stack_log, metadata_log,
    visitEach_log (fun k val s => parameter_log P Q doc k val s),
    visitEach_log (fun k val s => dependency_log P Q doc k val s),
    services_log, stackTrace, eachTrace, List.append_assoc]

/-- C8: the cloud-architecture tables are mutually inverse: composing
`ArchNames` with `ArchMap` is the identity on every `Arch` tag, composing
`ArchMap` with `ArchNames` is the identity on each of the five names, and
the empty string maps to the `NoArch` default. -/
theorem c8_arch_tables_inverse :
    (∀ a : Arch, (lookup? ArchNames a).bind (lookup? ArchMap) = some a) ∧
    ((["", "aws", "gcp", "azure", "vmware"] : List String).all
      (fun n => decide ((lookup? ArchMap n).bind (lookup? ArchNames) = some n)) = true) ∧
    lookup? ArchMap "" = some Arch.NoArch := by
  refine ⟨fun a => ?_, by decide, by decide⟩
  cases a <;> rfl

/-- C3: for every Services value, its Public entries are all visited (and
written back — the record component returns unchanged for the logging
observers) before any Private entry, the log being exactly the public
segment in sorted key order followed by the private segment in sorted key
order, even when a private key sorts before every public key. -/
theorem c3_public_before_private (doc : Document) (svcs : Services)
    (s : List VisitEvent) :
    inOrderVisitor.VisitServices
      ⟨hookVisitor (some .pre), hookVisitor (some .post)⟩ doc svcs s =
      (svcs,
        s ++ ((sortStrings (keysOf svcs.Public)).flatMap
            (fun k => [.service .pre k true, .service .post k true]) ++
          (sortStrings (keysOf svcs.Private)).flatMap
            (fun k => [.service .pre k false, .service .post k false]))) := by
  rw [services_log]
  simp [servicesTrace, eachTrace, pairTrace, hookEvents]

/-- C5: the traversal entered at VisitStack proceeds in exactly this child
order: the pre hook on the Stack, its Metadata with kind tag "Stack" (its
Targets in sorted order inside the metadata bracket), all Parameters in
sorted key order, all Dependencies in sorted key order, the Services
container (publics then privates), and finally the post hook. -/
theorem c5_child_order (doc : Document) (stack : Stack) (s : List VisitEvent) :
    inOrderVisitor.VisitStack
      ⟨hookVisitor (some .pre), hookVisitor (some .post)⟩ doc stack s =
      (stack,
        s ++ ([.stack .pre] ++
          ([.metadata .pre "Stack"] ++
            (sortStrings (keysOf stack.Metadata.Targets)).flatMap
              (fun k => [.target .pre k, .target .post k]) ++
            [.metadata .post "Stack"]) ++
          (sortStrings (keysOf stack.Parameters)).flatMap
            (fun k => [.parameter .pre k, .parameter .post k]) ++
          (sortStrings (keysOf stack.Dependencies)).flatMap
            (fun k => [.dependency .pre k, .dependency .post k]) ++
          ((sortStrings (keysOf stack.Services.Public)).flatMap
              (fun k => [.service .pre k true, .service .post k true]) ++
            (sortStrings (keysOf stack.Services.Private)).flatMap
              (fun k => [.service .pre k false, .service .post k false])) ++
          [.stack .post])) := by
  rw [stack_log]
  simp [stackTrace, metadataTrace, servicesTrace, eachTrace, pairTrace,
    hookEvents, List.append_assoc]

/-- C1 counterexample: with a pre observer present (the logging pre/post
observer pair), visiting a Services record with one public entry produces a
log containing only the service visits and no services event at all — in
particular the pre observer's VisitServices method is never invoked, so it
is not invoked before the recursion into the children. -/
theorem c1_counterexample :
    (inOrderVisitor.VisitServices
      ⟨hookVisitor (some .pre), hookVisitor (some .post)⟩ doc0 svcs0 []).2 =
      [.service .pre "a" true, .service .post "a" true] ∧
    VisitEvent.services .pre ∉
      (inOrderVisitor.VisitServices
        ⟨hookVisitor (some .pre), hookVisitor (some .post)⟩ doc0 svcs0 []).2 := by
  constructor
  · decide
  · decide

/-- C1 amended: for VisitMetadata, VisitStack, VisitParameter,
VisitDependency, VisitService and VisitTarget of the composed visitor, a
present pre observer's corresponding method runs before any recursion into
the record's children and a present post observer's method after all
children; VisitServices, however, invokes neither observer's VisitServices
method — its children are still all visited, publics then privates, and no
services event ever appears in its log. -/
theorem c1_amended_bracketing (P Q : Option Hook) (doc : Document)
    (kind : String) (meta : Metadata) (stack : Stack) (svcs : Services)
    (name : Name) (public : Bool) (param : Parameter) (dep : Dependency)
    (svc : Service) (target : Target) (s : List VisitEvent) :
    (inOrderVisitor.VisitMetadata ⟨hookVisitor P, hookVisitor Q⟩ doc kind meta s =
      (meta, s ++ (hookEvents P (fun h => .metadata h kind) ++
        eachTrace P Q (sortStrings (keysOf meta.Targets)) (fun h k => .target h k) ++
        hookEvents Q (fun h => .metadata h kind)))) ∧
    (inOrderVisitor.VisitStack ⟨hookVisitor P, hookVisitor Q⟩ doc stack s =
      (stack, s ++ (hookEvents P (fun h => .stack h) ++
        (metadataTrace P Q "Stack" stack.Metadata ++
          eachTrace P Q (sortStrings (keysOf stack.Parameters)) (fun h k => .parameter h k) ++
          eachTrace P Q (sortStrings (keysOf stack.Dependencies)) (fun h k => .dependency h k) ++
          servicesTrace P Q stack.Services) ++
        hookEvents Q (fun h => .stack h)))) ∧
    (inOrderVisitor.VisitParameter ⟨hookVisitor P, hookVisitor Q⟩ doc name param s =
      (param, s ++ pairTrace P Q (fun h => .parameter h name))) ∧
    (inOrderVisitor.VisitDependency ⟨hookVisitor P, hookVisitor Q⟩ doc name dep s =
      (dep, s ++ pairTrace P Q (fun h => .dependency h name))) ∧
    (inOrderVisitor.VisitService ⟨hookVisitor P, hookVisitor Q⟩ doc name public svc s =
      (svc, s ++ pairTrace P Q (fun h => .service h name public))) ∧
    (inOrderVisitor.VisitTarget ⟨hookVisitor P, hookVisitor Q⟩ doc name target s =
      (target, s ++ pairTrace P Q (fun h => .target h name))) ∧
    (inOrderVisitor.VisitServices ⟨hookVisitor P, hookVisitor Q⟩ doc svcs s =
      (svcs, s ++ servicesTrace P Q svcs)) ∧
    (∀ e ∈ servicesTrace P Q svcs, ∀ h : Hook, e ≠ .services h) := by
  refine ⟨?_, ?_, parameter_log P Q doc name param s, dependency_log P Q doc name dep s,
    service_log P Q doc name public svc s, target_log P Q doc name target s,
    services_log P Q doc svcs s, ?_⟩
  · rw [metadata_log]
    simp [metadataTrace, List.append_assoc]
  · rw [stack_log]
    simp [stackTrace, List.append_assoc]
  · intro e he h
    simp only [servicesTrace, eachTrace, pairTrace, hookEvents, List.mem_append,
      List.mem_flatMap] at he
    rcases he with ⟨k, _, hk⟩ | ⟨k, _, hk⟩ <;>
      cases P <;> cases Q <;> simp_all <;>
        rcases hk with rfl | rfl <;> simp

theorem eachTrace_hookOf (f : Hook → String → VisitEvent) {h₀ : Hook}
    (hf : ∀ h k, hookOf (f h k) = h) (ks : List String) :
    ∀ e ∈ eachTrace (some h₀) none ks f, hookOf e = h₀ := by
  intro e he
  simp only [eachTrace, pairTrace, hookEvents, List.mem_flatMap,
    List.mem_append, List.mem_singleton, List.not_mem_nil, or_false] at he
  obtain ⟨k, _, rfl⟩ := he
  exact hf h₀ k

theorem hookAll_append {h₀ : Hook} {l₁ l₂ : List VisitEvent}
    (h₁ : ∀ e ∈ l₁, hookOf e = h₀) (h₂ : ∀ e ∈ l₂, hookOf e = h₀) :
    ∀ e ∈ l₁ ++ l₂, hookOf e = h₀ := by
  intro e he
  rcases List.mem_append.mp he with h | h
  · exact h₁ e h
  · exact h₂ e h

theorem hookAll_hookEvents {h₀ : Hook} {f : Hook → VisitEvent}
    (hf : hookOf (f h₀) = h₀) :
    ∀ e ∈ hookEvents (some h₀) f, hookOf e = h₀ := by
  intro e he
  simp only [hookEvents, List.mem_singleton] at he
  subst he
  exact hf

theorem hookAll_none {h₀ : Hook} {f : Hook → VisitEvent} :
    ∀ e ∈ hookEvents none f, hookOf e = h₀ := by
  intro e he
  simp [hookEvents] at he

theorem stackTrace_pre_only (stack : Stack) :
    ∀ e ∈ stackTrace (some Hook.pre) none stack, hookOf e = Hook.pre := by
  unfold stackTrace metadataTrace servicesTrace
  exact hookAll_append
    (hookAll_append
      (hookAll_append
        (hookAll_append
          (hookAll_append (hookAll_hookEvents rfl)
            (hookAll_append
              (hookAll_append (hookAll_hookEvents rfl)
                (eachTrace_hookOf (fun h k => .target h k) (fun _ _ => rfl) _))
              hookAll_none))
          (eachTrace_hookOf (fun h k => .parameter h k) (fun _ _ => rfl) _))
        (eachTrace_hookOf (fun h k => .dependency h k) (fun _ _ => rfl) _))
      (hookAll_append
        (eachTrace_hookOf (fun h k => .service h k true) (fun _ _ => rfl) _)
        (eachTrace_hookOf (fun h k => .service h k false) (fun _ _ => rfl) _)))
    hookAll_none

/-- C7: Diag of the composed visitor returns the pre observer's sink
whenever a pre observer is present, otherwise the post observer's sink when
a post observer is present, otherwise an absent sink; and composing with an
absent post observer does not fail — the traversal still completes,
returning the stack and a log of pre-tagged events only, all post-calls
being skipped. -/
theorem c7_diag_and_absent_post {σ : Type} (p q : Visitor σ) (doc : Document)
    (stack : Stack) (s : List VisitEvent) :
    inOrderVisitor.Diag (⟨some p, some q⟩ : inOrderVisitor σ) = p.Diag ∧
    inOrderVisitor.Diag (⟨some p, none⟩ : inOrderVisitor σ) = p.Diag ∧
    inOrderVisitor.Diag (⟨none, some q⟩ : inOrderVisitor σ) = q.Diag ∧
    inOrderVisitor.Diag (⟨none, none⟩ : inOrderVisitor σ) = none ∧
    (inOrderVisitor.VisitStack
        ⟨hookVisitor (some Hook.pre), none⟩ doc stack s =
      (stack, s ++ stackTrace (some Hook.pre) none stack)) ∧
    (∀ e ∈ stackTrace (some Hook.pre) none stack, hookOf e = Hook.pre) := by
  refine ⟨rfl, rfl, rfl, rfl, ?_, stackTrace_pre_only stack⟩
  exact stack_log (some Hook.pre) none doc stack s

theorem filterMap_eachTrace_pick (f : VisitEvent → Option String)
    (g : Hook → String → VisitEvent)
    (h₁ : ∀ k, f (g Hook.pre k) = some k) (h₂ : ∀ k, f (g Hook.post k) = none) :
    ∀ ks : List String,
      (eachTrace (some Hook.pre) (some Hook.post) ks g).filterMap f = ks := by
  intro ks
  induction ks with
  | nil => simp [eachTrace]
  | cons k ks ih =>
    have step : eachTrace (some Hook.pre) (some Hook.post) (k :: ks) g =
        pairTrace (some Hook.pre) (some Hook.post) (fun h => g h k) ++
          eachTrace (some Hook.pre) (some Hook.post) ks g := by
      simp [eachTrace]
    rw [step, List.filterMap_append, ih]
    simp [pairTrace, hookEvents, h₁, h₂]

theorem filterMap_eachTrace_none (f : VisitEvent → Option String)
    (g : Hook → String → VisitEvent)
    (h₁ : ∀ k, f (g Hook.pre k) = none) (h₂ : ∀ k, f (g Hook.post k) = none) :
    ∀ ks : List String,
      (eachTrace (some Hook.pre) (some Hook.post) ks g).filterMap f = [] := by
  intro ks
  induction ks with
  | nil => simp [eachTrace]
  | cons k ks ih =>
    have step : eachTrace (some Hook.pre) (some Hook.post) (k :: ks) g =
        pairTrace (some Hook.pre) (some Hook.post) (fun h => g h k) ++
          eachTrace (some Hook.pre) (some Hook.post) ks g := by
      simp [eachTrace]
    rw [step, List.filterMap_append, ih]
    simp [pairTrace, hookEvents, h₁, h₂]

theorem targetNamesOf_stackTrace (stack : Stack) :
    targetNamesOf (stackTrace (some Hook.pre) (some Hook.post) stack) =
      sortStrings (keysOf stack.Metadata.Targets) := by
  unfold targetNamesOf stackTrace metadataTrace servicesTrace
  simp [List.filterMap_append, hookEvents, pickTarget,
    filterMap_eachTrace_pick pickTarget (fun h k => VisitEvent.target h k)
      (fun k => rfl) (fun k => rfl),
    filterMap_eachTrace_none pickTarget (fun h k => VisitEvent.parameter h k)
      (fun k => rfl) (fun k => rfl),
    filterMap_eachTrace_none pickTarget (fun h k => VisitEvent.dependency h k)
      (fun k => rfl) (fun k => rfl),
    filterMap_eachTrace_none pickTarget (fun h k => VisitEvent.service h k true)
      (fun k => rfl) (fun k => rfl),
    filterMap_eachTrace_none pickTarget (fun h k => VisitEvent.service h k false)
      (fun k => rfl) (fun k => rfl)]

theorem paramNamesOf_stackTrace (stack : Stack) :
    paramNamesOf (stackTrace (some Hook.pre) (some Hook.post) stack) =
      sortStrings (keysOf stack.Parameters) := by
  unfold paramNamesOf stackTrace metadataTrace servicesTrace
  simp [List.filterMap_append, hookEvents, pickParam,
    filterMap_eachTrace_pick pickParam (fun h k => VisitEvent.parameter h k)
      (fun k => rfl) (fun k => rfl),
    filterMap_eachTrace_none pickParam (fun h k => VisitEvent.target h k)
      (fun k => rfl) (fun k => rfl),
    filterMap_eachTrace_none pickParam (fun h k => VisitEvent.dependency h k)
      (fun k => rfl) (fun k => rfl),
    filterMap_eachTrace_none pickParam (fun h k => VisitEvent.service h k true)
      (fun k => rfl) (fun k => rfl),
    filterMap_eachTrace_none pickParam (fun h k => VisitEvent.service h k false)
      (fun k => rfl) (fun k => rfl)]

theorem depNamesOf_stackTrace (stack : Stack) :
    depNamesOf (stackTrace (some Hook.pre) (some Hook.post) stack) =
      sortStrings (keysOf stack.Dependencies) := by
  unfold depNamesOf stackTrace metadataTrace servicesTrace
  simp [List.filterMap_append, hookEvents, pickDep,
    filterMap_eachTrace_pick pickDep (fun h k => VisitEvent.dependency h k)
      (fun k => rfl) (fun k => rfl),
    filterMap_eachTrace_none pickDep (fun h k => VisitEvent.target h k)
      (fun k => rfl) (fun k => rfl),
    filterMap_eachTrace_none pickDep (fun h k => VisitEvent.parameter h k)
      (fun k => rfl) (fun k => rfl),
    filterMap_eachTrace_none pickDep (fun h k => VisitEvent.service h k true)
      (fun k => rfl) (fun k => rfl),
    filterMap_eachTrace_none pickDep (fun h k => VisitEvent.service h k false)
      (fun k => rfl) (fun k => rfl)]

theorem publicNamesOf_stackTrace (stack : Stack) :
    publicNamesOf (stackTrace (some Hook.pre) (some Hook.post) stack) =
      sortStrings (keysOf stack.Services.Public) := by
  unfold publicNamesOf stackTrace metadataTrace servicesTrace
  simp [List.filterMap_append, hookEvents, pickPublic,
    filterMap_eachTrace_pick pickPublic (fun h k => VisitEvent.service h k true)
      (fun k => rfl) (fun k => rfl),
    filterMap_eachTrace_none pickPublic (fun h k => VisitEvent.target h k)
      (fun k => rfl) (fun k => rfl),
    filterMap_eachTrace_none pickPublic (fun h k => VisitEvent.parameter h k)
      (fun k => rfl) (fun k => rfl),
    filterMap_eachTrace_none pickPublic (fun h k => VisitEvent.dependency h k)
      (fun k => rfl) (fun k => rfl),
    filterMap_eachTrace_none pickPublic (fun h k => VisitEvent.service h k false)
      (fun k => rfl) (fun k => rfl)]

theorem privateNamesOf_stackTrace (stack : Stack) :
    privateNamesOf (stackTrace (some Hook.pre) (some Hook.post) stack) =
      sortStrings (keysOf stack.Services.Private) := by
  unfold privateNamesOf stackTrace metadataTrace servicesTrace
  simp [List.filterMap_append, hookEvents, pickPrivate,
    filterMap_eachTrace_pick pickPrivate (fun h k => VisitEvent.service h k false)
      (fun k => rfl) (fun k => rfl),
    filterMap_eachTrace_none pickPrivate (fun h k => VisitEvent.target h k)
      (fun k => rfl) (fun k => rfl),
    filterMap_eachTrace_none pickPrivate (fun h k => VisitEvent.parameter h k)
      (fun k => rfl) (fun k => rfl),
    filterMap_eachTrace_none pickPrivate (fun h k => VisitEvent.dependency h k)
      (fun k => rfl) (fun k => rfl),
    filterMap_eachTrace_none pickPrivate (fun h k => VisitEvent.service h k true)
      (fun k => rfl) (fun k => rfl)]

theorem keysOf_perm {m₁ m₂ : List (κ × α)} (h : List.Perm m₁ m₂) :
    List.Perm (keysOf m₁) (keysOf m₂) :=
  h.map Prod.fst

theorem stackTrace_eq_of_perm (P Q : Option Hook) {s₁ s₂ : Stack}
    (hp : MappingsPerm s₁ s₂) :
    stackTrace P Q s₁ = stackTrace P Q s₂ := by
  obtain ⟨h1, h2, h3, h4, h5⟩ := hp
  unfold stackTrace metadataTrace servicesTrace
  rw [sortStrings_eq_of_perm (keysOf_perm h1), sortStrings_eq_of_perm (keysOf_perm h2),
    sortStrings_eq_of_perm (keysOf_perm h3), sortStrings_eq_of_perm (keysOf_perm h4),
    sortStrings_eq_of_perm (keysOf_perm h5)]

/-- C2: the traversal emits, for each of the five mappings, exactly the
sorted (byte-wise ascending) key sequence of that mapping; the log does not
depend on the underlying map order — two stacks holding the same bindings
in permuted order produce identical logs on every run. -/
theorem c2_sorted_order_deterministic (doc : Document) (st₁ st₂ : Stack)
    (s : List VisitEvent) (hp : MappingsPerm st₁ st₂) :
    (inOrderVisitor.VisitStack
        ⟨hookVisitor (some Hook.pre), hookVisitor (some Hook.post)⟩ doc st₁ s =
      (st₁, s ++ stackTrace (some Hook.pre) (some Hook.post) st₁)) ∧
    (targetNamesOf (stackTrace (some Hook.pre) (some Hook.post) st₁) =
        sortStrings (keysOf st₁.Metadata.Targets) ∧
      paramNamesOf (stackTrace (some Hook.pre) (some Hook.post) st₁) =
        sortStrings (keysOf st₁.Parameters) ∧
      depNamesOf (stackTrace (some Hook.pre) (some Hook.post) st₁) =
        sortStrings (keysOf st₁.Dependencies) ∧
      publicNamesOf (stackTrace (some Hook.pre) (some Hook.post) st₁) =
        sortStrings (keysOf st₁.Services.Public) ∧
      privateNamesOf (stackTrace (some Hook.pre) (some Hook.post) st₁) =
        sortStrings (keysOf st₁.Services.Private)) ∧
    (List.Sorted (· ≤ ·) (targetNamesOf (stackTrace (some Hook.pre) (some Hook.post) st₁)) ∧
      List.Sorted (· ≤ ·) (paramNamesOf (stackTrace (some Hook.pre) (some Hook.post) st₁)) ∧
      List.Sorted (· ≤ ·) (depNamesOf (stackTrace (some Hook.pre) (some Hook.post) st₁)) ∧
      List.Sorted (· ≤ ·) (publicNamesOf (stackTrace (some Hook.pre) (some Hook.post) st₁)) ∧
      List.Sorted (· ≤ ·) (privateNamesOf (stackTrace (some Hook.pre) (some Hook.post) st₁))) ∧
    stackTrace (some Hook.pre) (some Hook.post) st₁ =
      stackTrace (some Hook.pre) (some Hook.post) st₂ := by
  refine ⟨stack_log _ _ doc st₁ s,
    ⟨targetNamesOf_stackTrace st₁, paramNamesOf_stackTrace st₁,
      depNamesOf_stackTrace st₁, publicNamesOf_stackTrace st₁,
      privateNamesOf_stackTrace st₁⟩,
    ⟨?_, ?_, ?_, ?_, ?_⟩,
    stackTrace_eq_of_perm _ _ hp⟩
  · rw [targetNamesOf_stackTrace]; exact sortStrings_sorted _
  · rw [paramNamesOf_stackTrace]; exact sortStrings_sorted _
  · rw [depNamesOf_stackTrace]; exact sortStrings_sorted _
  · rw [publicNamesOf_stackTrace]; exact sortStrings_sorted _
  · rw [privateNamesOf_stackTrace]; exact sortStrings_sorted _

/-- C2 witness: for parameter keys arriving as b, a, c (and as a, c, b in a
permuted copy) the hypothesis holds, the visited parameter names are a, b,
c, and the two logs are identical. -/
theorem c2_witness :
    MappingsPerm stackA stackB ∧
    paramNamesOf (stackTrace (some Hook.pre) (some Hook.post) stackA) =
      ["a", "b", "c"] ∧
    stackTrace (some Hook.pre) (some Hook.post) stackA =
      stackTrace (some Hook.pre) (some Hook.post) stackB := by
  have hp : MappingsPerm stackA stackB := by
    constructor
    · decide
    · exact ⟨by decide, by decide, by decide, by decide⟩
  have h := c2_sorted_order_deterministic doc0 stackA stackB [] hp
  exact ⟨hp, (h.2.1.2.1).trans (by decide), h.2.2.2⟩

theorem applyHook_fst_id {o : Option (Visitor σ)}
    {call : Visitor σ → α → σ → α × σ}
    (h : ∀ w, o = some w → ∀ a s, (call w a s).1 = a) (a : α) (s : σ) :
    (applyHook o call a s).1 = a := by
  cases o with
  | none => rfl
  | some w => exact h w rfl a s

theorem inOrder_target_fst {pre post : Option (Visitor σ)}
    (hpre : ∀ w, pre = some w → NonMutating w)
    (hpost : ∀ w, post = some w → NonMutating w)
    (doc : Document) (name : String) (target : Target) (s : σ) :
    (inOrderVisitor.VisitTarget ⟨pre, post⟩ doc name target s).1 = target := by
  simp only [inOrderVisitor.VisitTarget]
  rw [applyHook_fst_id (fun w hw a s => (hpost w hw).2.2.2.2.2.2 doc name a s),
    applyHook_fst_id (fun w hw a s => (hpre w hw).2.2.2.2.2.2 doc name a s)]

theorem inOrder_parameter_fst {pre post : Option (Visitor σ)}
    (hpre : ∀ w, pre = some w → NonMutating w)
    (hpost : ∀ w, post = some w → NonMutating w)
    (doc : Document) (name : String) (param : Parameter) (s : σ) :
    (inOrderVisitor.VisitParameter ⟨pre, post⟩ doc name param s).1 = param := by
  simp only [inOrderVisitor.VisitParameter]
  rw [applyHook_fst_id (fun w hw a s => (hpost w hw).2.2.1 doc name a s),
    applyHook_fst_id (fun w hw a s => (hpre w hw).2.2.1 doc name a s)]

theorem inOrder_dependency_fst {pre post : Option (Visitor σ)}
    (hpre : ∀ w, pre = some w → NonMutating w)
    (hpost : ∀ w, post = some w → NonMutating w)
    (doc : Document) (name : Name) (dep : Dependency) (s : σ) :
    (inOrderVisitor.VisitDependency ⟨pre, post⟩ doc name dep s).1 = dep := by
  simp only [inOrderVisitor.VisitDependency]
  rw [applyHook_fst_id (fun w hw a s => (hpost w hw).2.2.2.1 doc name a s),
    applyHook_fst_id (fun w hw a s => (hpre w hw).2.2.2.1 doc name a s)]

theorem inOrder_service_fst {pre post : Option (Visitor σ)}
    (hpre : ∀ w, pre = some w → NonMutating w)
    (hpost : ∀ w, post = some w → NonMutating w)
    (doc : Document) (name : Name) (public : Bool) (svc : Service) (s : σ) :
    (inOrderVisitor.VisitService ⟨pre, post⟩ doc name public svc s).1 = svc := by
  simp only [inOrderVisitor.VisitService]
  rw [applyHook_fst_id (fun w hw a s => (hpost w hw).2.2.2.2.2.1 doc name public a s),
    applyHook_fst_id (fun w hw a s => (hpre w hw).2.2.2.2.2.1 doc name public a s)]

theorem inOrder_metadata_fst {pre post : Option (Visitor σ)}
    (hpre : ∀ w, pre = some w → NonMutating w)
    (hpost : ∀ w, post = some w → NonMutating w)
    (doc : Document) (kind : String) (meta : Metadata) (s : σ) :
    (inOrderVisitor.VisitMetadata ⟨pre, post⟩ doc kind meta s).1 = meta := by
  simp only [inOrderVisitor.VisitMetadata]
  rw [applyHook_fst_id (fun w hw a s => (hpost w hw).1 doc kind a s),
    applyHook_fst_id (fun w hw a s => (hpre w hw).1 doc kind a s),
    visitEach_id (fun k val s => inOrder_target_fst hpre hpost doc k val s)]

theorem inOrder_services_fst {pre post : Option (Visitor σ)}
    (hpre : ∀ w, pre = some w → NonMutating w)
    (hpost : ∀ w, post = some w → NonMutating w)
    (doc : Document) (svcs : Services) (s : σ) :
    (inOrderVisitor.VisitServices ⟨pre, post⟩ doc svcs s).1 = svcs := by
  simp only [inOrderVisitor.VisitServices]
  rw [visitEach_id (fun k val s => inOrder_service_fst hpre hpost doc k true val s),
    visitEach_id (fun k val s => inOrder_service_fst hpre hpost doc k false val s)]

theorem inOrder_stack_fst {pre post : Option (Visitor σ)}
    (hpre : ∀ w, pre = some w → NonMutating w)
    (hpost : ∀ w, post = some w → NonMutating w)
    (doc : Document) (stack : Stack) (s : σ) :
    (inOrderVisitor.VisitStack ⟨pre, post⟩ doc stack s).1 = stack := by
  simp only [inOrderVisitor.VisitStack]
  rw [applyHook_fst_id (fun w hw a s => (hpost w hw).2.1 doc a s),
    applyHook_fst_id (fun w hw a s => (hpre w hw).2.1 doc a s),
    inOrder_metadata_fst hpre hpost,
    visitEach_id (fun k val s => inOrder_parameter_fst hpre hpost doc k val s),
    visitEach_id (fun k val s => inOrder_dependency_fst hpre hpost doc k val s),
    inOrder_services_fst hpre hpost]

/-- C6: with observers that perform no mutation, the traversal returns the
stack unchanged (the unconditional write-back stores back the unchanged
values), and running it twice in a row yields identical outcomes — same
final stack and same observer state, hence byte-identical visit logs. -/
theorem c6_no_mutation_idempotent {σ : Type} (pre post : Option (Visitor σ))
    (hpre : ∀ w, pre = some w → NonMutating w)
    (hpost : ∀ w, post = some w → NonMutating w)
    (doc : Document) (stack : Stack) (s : σ) :
    (inOrderVisitor.VisitStack ⟨pre, post⟩ doc stack s).1 = stack ∧
    inOrderVisitor.VisitStack ⟨pre, post⟩ doc
        (inOrderVisitor.VisitStack ⟨pre, post⟩ doc stack s).1 s =
      inOrderVisitor.VisitStack ⟨pre, post⟩ doc stack s := by
  have h := inOrder_stack_fst hpre hpost doc stack s
  exact ⟨h, by rw [h]⟩

theorem logVisitor_nonMutating (h : Hook) : NonMutating (logVisitor h) :=
  ⟨fun _ _ _ _ => rfl, fun _ _ _ => rfl, fun _ _ _ _ => rfl, fun _ _ _ _ => rfl,
   fun _ _ _ => rfl, fun _ _ _ _ _ => rfl, fun _ _ _ _ => rfl⟩

/-- C6 witness: the logging observers never mutate, and on the concrete
stack the traversal returns it unchanged, twice in a row identically. -/
theorem c6_witness :
    (inOrderVisitor.VisitStack
      ⟨some (logVisitor .pre), some (logVisitor .post)⟩ doc0 stackA []).1 = stackA ∧
    inOrderVisitor.VisitStack ⟨some (logVisitor .pre), some (logVisitor .post)⟩ doc0
        (inOrderVisitor.VisitStack
          ⟨some (logVisitor .pre), some (logVisitor .post)⟩ doc0 stackA []).1 [] =
      inOrderVisitor.VisitStack
        ⟨some (logVisitor .pre), some (logVisitor .post)⟩ doc0 stackA [] :=
  c6_no_mutation_idempotent (some (logVisitor .pre)) (some (logVisitor .post))
    (fun w hw => by
      injection hw with hw
      exact hw ▸ logVisitor_nonMutating Hook.pre)
    (fun w hw => by
      injection hw with hw
      exact hw ▸ logVisitor_nonMutating Hook.post)
    doc0 stackA []

theorem inOrder_metadata_content {σ : Type} {pre post : Option (Visitor σ)}
    {fT : String → Target → Target} (doc : Document) (kind : String)
    (hpreMeta : ∀ meta s,
      (applyHook pre (fun o => o.VisitMetadata doc kind) meta s).1 = meta)
    (hpostMeta : ∀ meta s,
      (applyHook post (fun o => o.VisitMetadata doc kind) meta s).1 = meta)
    (hT : ∀ n t s, (inOrderVisitor.VisitTarget ⟨pre, post⟩ doc n t s).1 = fT n t)
    {meta : Metadata} (s : σ) (hnd : (keysOf meta.Targets).Nodup)
    {k : String} {t : Target} (hl : lookup? meta.Targets k = some t) :
    lookup? (inOrderVisitor.VisitMetadata ⟨pre, post⟩ doc kind meta s).1.Targets k =
      some (fT k t) := by
  simp only [inOrderVisitor.VisitMetadata]
  rw [hpostMeta, hpreMeta]
  exact visitEach_content hT hnd hl

theorem inOrder_services_content {σ : Type} {pre post : Option (Visitor σ)}
    {fS : String → Bool → Service → Service} (doc : Document)
    (hS : ∀ n b v s,
      (inOrderVisitor.VisitService ⟨pre, post⟩ doc n b v s).1 = fS n b v)
    {svcs : Services} (s : σ)
    (hndPu : (keysOf svcs.Public).Nodup) (hndPr : (keysOf svcs.Private).Nodup) :
    (∀ k v, lookup? svcs.Public k = some v →
      lookup? (inOrderVisitor.VisitServices ⟨pre, post⟩ doc svcs s).1.Public k =
        some (fS k true v)) ∧
    (∀ k v, lookup? svcs.Private k = some v →
      lookup? (inOrderVisitor.VisitServices ⟨pre, post⟩ doc svcs s).1.Private k =
        some (fS k false v)) := by
  constructor
  · intro k v hl
    simp only [inOrderVisitor.VisitServices]
    exact visitEach_content (fun n val s => hS n true val s) hndPu hl
  · intro k v hl
    simp only [inOrderVisitor.VisitServices]
    exact visitEach_content (fun n val s => hS n false val s) hndPr hl

theorem inOrder_stack_content {σ : Type} {pre post : Option (Visitor σ)}
    {fT : String → Target → Target} {fP : String → Parameter → Parameter}
    {fD : String → Dependency → Dependency}
    {fS : String → Bool → Service → Service} (doc : Document)
    (hpreStack : ∀ st s, (applyHook pre (fun o => o.VisitStack doc) st s).1 = st)
    (hpostStack : ∀ st s, (applyHook post (fun o => o.VisitStack doc) st s).1 = st)
    (hpreMeta : ∀ meta s,
      (applyHook pre (fun o => o.VisitMetadata doc "Stack") meta s).1 = meta)
    (hpostMeta : ∀ meta s,
      (applyHook post (fun o => o.VisitMetadata doc "Stack") meta s).1 = meta)
    (hT : ∀ n t s, (inOrderVisitor.VisitTarget ⟨pre, post⟩ doc n t s).1 = fT n t)
    (hP : ∀ n p s,
      (inOrderVisitor.VisitParameter ⟨pre, post⟩ doc n p s).1 = fP n p)
    (hD : ∀ n d s,
      (inOrderVisitor.VisitDependency ⟨pre, post⟩ doc n d s).1 = fD n d)
    (hS : ∀ n b v s,
      (inOrderVisitor.VisitService ⟨pre, post⟩ doc n b v s).1 = fS n b v)
    (stack : Stack) (s : σ)
    (hndT : (keysOf stack.Metadata.Targets).Nodup)
    (hndP : (keysOf stack.Parameters).Nodup)
    (hndD : (keysOf stack.Dependencies).Nodup)
    (hndPu : (keysOf stack.Services.Public).Nodup)
    (hndPr : (keysOf stack.Services.Private).Nodup) :
    (∀ k t, lookup? stack.Metadata.Targets k = some t →
      lookup? (inOrderVisitor.VisitStack ⟨pre, post⟩ doc stack s).1.Metadata.Targets k =
        some (fT k t)) ∧
    (∀ k p, lookup? stack.Parameters k = some p →
      lookup? (inOrderVisitor.VisitStack ⟨pre, post⟩ doc stack s).1.Parameters k =
        some (fP k p)) ∧
    (∀ k d, lookup? stack.Dependencies k = some d →
      lookup? (inOrderVisitor.VisitStack ⟨pre, post⟩ doc stack s).1.Dependencies k =
        some (fD k d)) ∧
    (∀ k v, lookup? stack.Services.Public k = some v →
      lookup? (inOrderVisitor.VisitStack ⟨pre, post⟩ doc stack s).1.Services.Public k =
        some (fS k true v)) ∧
    (∀ k v, lookup? stack.Services.Private k = some v →
      lookup? (inOrderVisitor.VisitStack ⟨pre, post⟩ doc stack s).1.Services.Private k =
        some (fS k false v)) := by
  refine ⟨?_, ?_, ?_, ?_, ?_⟩
  · intro k t hl
    simp only [inOrderVisitor.VisitStack]
    rw [hpostStack, hpreStack]
    exact inOrder_metadata_content doc "Stack" hpreMeta hpostMeta hT _ hndT hl
  · intro k p hl
    simp only [inOrderVisitor.VisitStack]
    rw [hpostStack, hpreStack]
    exact visitEach_content hP hndP hl
  · intro k d hl
    simp only [inOrderVisitor.VisitStack]
    rw [hpostStack, hpreStack]
    exact visitEach_content hD hndD hl
  · intro k v hl
    simp only [inOrderVisitor.VisitStack]
    rw [hpostStack, hpreStack]
    exact (inOrder_services_content doc hS _ hndPu hndPr).1 k v hl
  · intro k v hl
    simp only [inOrderVisitor.VisitStack]
    rw [hpostStack, hpreStack]
    exact (inOrder_services_content doc hS _ hndPu hndPr).2 k v hl

/-- C4: with an observer whose leaf mutations are given by fixed
transformation functions and whose container methods leave their record
unchanged, after the top-level VisitStack returns every entry of every
mapping (targets, parameters, dependencies, public and private services)
holds exactly the value its visit produced: the unconditional write-back
persists the mutation at the same key for every key, and no mutation is
dropped. -/
theorem c4_writeback_fidelity {σ : Type} (p : Visitor σ) (doc : Document)
    (fT : String → Target → Target) (fP : String → Parameter → Parameter)
    (fD : String → Dependency → Dependency)
    (fS : String → Bool → Service → Service)
    (hStack : ∀ st s, (p.VisitStack doc st s).1 = st)
    (hMeta : ∀ kind meta s, (p.VisitMetadata doc kind meta s).1 = meta)
    (hT : ∀ n t s, (p.VisitTarget doc n t s).1 = fT n t)
    (hP : ∀ n pa s, (p.VisitParameter doc n pa s).1 = fP n pa)
    (hD : ∀ n d s, (p.VisitDependency doc n d s).1 = fD n d)
    (hS : ∀ n b v s, (p.VisitService doc n b v s).1 = fS n b v)
    (stack : Stack) (s : σ)
    (hndT : (keysOf stack.Metadata.Targets).Nodup)
    (hndP : (keysOf stack.Parameters).Nodup)
    (hndD : (keysOf stack.Dependencies).Nodup)
    (hndPu : (keysOf stack.Services.Public).Nodup)
    (hndPr : (keysOf stack.Services.Private).Nodup) :
    (∀ k t, lookup? stack.Metadata.Targets k = some t →
      lookup? (inOrderVisitor.VisitStack ⟨some p, none⟩ doc stack s).1.Metadata.Targets k =
        some (fT k t)) ∧
    (∀ k pa, lookup? stack.Parameters k = some pa →
      lookup? (inOrderVisitor.VisitStack ⟨some p, none⟩ doc stack s).1.Parameters k =
        some (fP k pa)) ∧
    (∀ k d, lookup? stack.Dependencies k = some d →
      lookup? (inOrderVisitor.VisitStack ⟨some p, none⟩ doc stack s).1.Dependencies k =
        some (fD k d)) ∧
    (∀ k v, lookup? stack.Services.Public k = some v →
      lookup? (inOrderVisitor.VisitStack ⟨some p, none⟩ doc stack s).1.Services.Public k =
        some (fS k true v)) ∧
    (∀ k v, lookup? stack.Services.Private k = some v →
      lookup? (inOrderVisitor.VisitStack ⟨some p, none⟩ doc stack s).1.Services.Private k =
        some (fS k false v)) :=
  @inOrder_stack_content σ (some p) none fT fP fD fS doc
    hStack (fun _ _ => rfl)
    (fun meta s => hMeta "Stack" meta s) (fun _ _ => rfl)
    (fun n t s => hT n t s) (fun n pa s => hP n pa s)
    (fun n d s => hD n d s) (fun n b v s => hS n b v s)
    stack s hndT hndP hndD hndPu hndPr

/-- C4 witness: on the concrete stack, the mutations bumpVisitor makes are
all found back in the mappings after the traversal, for keys early and late
in sorted order. -/
theorem c4_witness :
    lookup? (inOrderVisitor.VisitStack
        ⟨some bumpVisitor, none⟩ doc0 stackA ()).1.Parameters "a" =
      some ⟨"str", "2!"⟩ ∧
    lookup? (inOrderVisitor.VisitStack
        ⟨some bumpVisitor, none⟩ doc0 stackA ()).1.Parameters "c" =
      some ⟨"bool", "3!"⟩ ∧
    lookup? (inOrderVisitor.VisitStack
        ⟨some bumpVisitor, none⟩ doc0 stackA ()).1.Metadata.Targets "t1" =
      some ⟨"y!"⟩ ∧
    lookup? (inOrderVisitor.VisitStack
        ⟨some bumpVisitor, none⟩ doc0 stackA ()).1.Services.Private "a" =
      some ⟨"priv!"⟩ :=
  have h := c4_writeback_fidelity bumpVisitor doc0
    (fun _ t => { t with info := t.info ++ "!" })
    (fun _ pa => { pa with defaultValue := pa.defaultValue ++ "!" })
    (fun _ d => { d with version := d.version ++ "!" })
    (fun _ _ v => { v with info := v.info ++ "!" })
    (fun _ _ => rfl) (fun _ _ _ => rfl) (fun _ _ _ => rfl) (fun _ _ _ => rfl)
    (fun _ _ _ => rfl) (fun _ _ _ _ => rfl)
    stackA () (by decide) (by decide) (by decide) (by decide) (by decide)
  ⟨h.2.1 "a" ⟨"str", "2"⟩ (by decide), h.2.1 "c" ⟨"bool", "3"⟩ (by decide),
   h.1 "t1" ⟨"y"⟩ (by decide), h.2.2.2.2 "a" ⟨"priv"⟩ (by decide)⟩

/-- C9: at every leaf visit the post observer receives exactly the record
value the pre observer produced together with the pre observer's resulting
state (one shared reference), and the value written back into the owning
mapping is captured only after both ran: for every key the final value is
the post transformation applied to the pre transformation of the original
value, for all four leaf kinds. -/
theorem c9_shared_reference_composition {σ : Type} (p q : Visitor σ)
    (doc : Document)
    (fT gT : String → Target → Target) (fP gP : String → Parameter → Parameter)
    (fD gD : String → Dependency → Dependency)
    (fS gS : String → Bool → Service → Service)
    (hStackp : ∀ st s, (p.VisitStack doc st s).1 = st)
    (hStackq : ∀ st s, (q.VisitStack doc st s).1 = st)
    (hMetap : ∀ kind meta s, (p.VisitMetadata doc kind meta s).1 = meta)
    (hMetaq : ∀ kind meta s, (q.VisitMetadata doc kind meta s).1 = meta)
    (hTp : ∀ n t s, (p.VisitTarget doc n t s).1 = fT n t)
    (hTq : ∀ n t s, (q.VisitTarget doc n t s).1 = gT n t)
    (hPp : ∀ n pa s, (p.VisitParameter doc n pa s).1 = fP n pa)
    (hPq : ∀ n pa s, (q.VisitParameter doc n pa s).1 = gP n pa)
    (hDp : ∀ n d s, (p.VisitDependency doc n d s).1 = fD n d)
    (hDq : ∀ n d s, (q.VisitDependency doc n d s).1 = gD n d)
    (hSp : ∀ n b v s, (p.VisitService doc n b v s).1 = fS n b v)
    (hSq : ∀ n b v s, (q.VisitService doc n b v s).1 = gS n b v)
    (stack : Stack) (s : σ)
    (hndT : (keysOf stack.Metadata.Targets).Nodup)
    (hndP : (keysOf stack.Parameters).Nodup)
    (hndD : (keysOf stack.Dependencies).Nodup)
    (hndPu : (keysOf stack.Services.Public).Nodup)
    (hndPr : (keysOf stack.Services.Private).Nodup) :
    (∀ n pa s₀, inOrderVisitor.VisitParameter ⟨some p, some q⟩ doc n pa s₀ =
      q.VisitParameter doc n (p.VisitParameter doc n pa s₀).1
        (p.VisitParameter doc n pa s₀).2) ∧
    (∀ k t, lookup? stack.Metadata.Targets k = some t →
      lookup? (inOrderVisitor.VisitStack ⟨some p, some q⟩ doc stack s).1.Metadata.Targets k =
        some (gT k (fT k t))) ∧
    (∀ k pa, lookup? stack.Parameters k = some pa →
      lookup? (inOrderVisitor.VisitStack ⟨some p, some q⟩ doc stack s).1.Parameters k =
        some (gP k (fP k pa))) ∧
    (∀ k d, lookup? stack.Dependencies k = some d →
      lookup? (inOrderVisitor.VisitStack ⟨some p, some q⟩ doc stack s).1.Dependencies k =
        some (gD k (fD k d))) ∧
    (∀ k v, lookup? stack.Services.Public k = some v →
      lookup? (inOrderVisitor.VisitStack ⟨some p, some q⟩ doc stack s).1.Services.Public k =
        some (gS k true (fS k true v))) ∧
    (∀ k v, lookup? stack.Services.Private k = some v →
      lookup? (inOrderVisitor.VisitStack ⟨some p, some q⟩ doc stack s).1.Services.Private k =
        some (gS k false (fS k false v))) := by
  refine ⟨fun n pa s₀ => rfl, ?_⟩
  exact @inOrder_stack_content σ (some p) (some q)
    (fun n t => gT n (fT n t)) (fun n pa => gP n (fP n pa))
    (fun n d => gD n (fD n d)) (fun n b v => gS n b (fS n b v)) doc
    hStackp hStackq
    (fun meta s => hMetap "Stack" meta s) (fun meta s => hMetaq "Stack" meta s)
    (fun n t s => (hTq n _ _).trans (congrArg (gT n) (hTp n t s)))
    (fun n pa s => (hPq n _ _).trans (congrArg (gP n) (hPp n pa s)))
    (fun n d s => (hDq n _ _).trans (congrArg (gD n) (hDp n d s)))
    (fun n b v s => (hSq n b _ _).trans (congrArg (gS n b) (hSp n b v s)))
    stack s hndT hndP hndD hndPu hndPr

/-- C9 witness: with bumpVisitor as pre and markVisitor as post, the final
mapping values carry both markers in order — the post observer saw the pre
observer's mutation and the composition was written back. -/
theorem c9_witness :
    lookup? (inOrderVisitor.VisitStack
        ⟨some bumpVisitor, some markVisitor⟩ doc0 stackA ()).1.Parameters "b" =
      some ⟨"int", "1!?"⟩ ∧
    lookup? (inOrderVisitor.VisitStack
        ⟨some bumpVisitor, some markVisitor⟩ doc0 stackA ()).1.Services.Public "z" =
      some ⟨"pub!?"⟩ ∧
    lookup? (inOrderVisitor.VisitStack
        ⟨some bumpVisitor, some markVisitor⟩ doc0 stackA ()).1.Metadata.Targets "t2" =
      some ⟨"x!?"⟩ :=
  have h := c9_shared_reference_composition bumpVisitor markVisitor doc0
    (fun _ t => { t with info := t.info ++ "!" })
    (fun _ t => { t with info := t.info ++ "?" })
    (fun _ pa => { pa with defaultValue := pa.defaultValue ++ "!" })
    (fun _ pa => { pa with defaultValue := pa.defaultValue ++ "?" })
    (fun _ d => { d with version := d.version ++ "!" })
    (fun _ d => { d with version := d.version ++ "?" })
    (fun _ _ v => { v with info := v.info ++ "!" })
    (fun _ _ v => { v with info := v.info ++ "?" })
    (fun _ _ => rfl) (fun _ _ => rfl) (fun _ _ _ => rfl) (fun _ _ _ => rfl)
    (fun _ _ _ => rfl) (fun _ _ _ => rfl) (fun _ _ _ => rfl) (fun _ _ _ => rfl)
    (fun _ _ _ => rfl) (fun _ _ _ => rfl) (fun _ _ _ _ => rfl) (fun _ _ _ _ => rfl)
    stackA () (by decide) (by decide) (by decide) (by decide) (by decide)
  ⟨h.2.2.1 "b" ⟨"int", "1"⟩ (by decide),
   h.2.2.2.2.1 "z" ⟨"pub"⟩ (by decide),
   h.2.1 "t2" ⟨"x"⟩ (by decide)⟩

theorem inOrder_metadata_keys {σ : Type} {pre post : Option (Visitor σ)}
    (doc : Document) (kind : String)
    (hpreMeta : ∀ meta s,
      keysOf ((applyHook pre (fun o => o.VisitMetadata doc kind) meta s).1).Targets =
        keysOf meta.Targets)
    (hpostMeta : ∀ meta s,
      keysOf ((applyHook post (fun o => o.VisitMetadata doc kind) meta s).1).Targets =
        keysOf meta.Targets)
    (meta : Metadata) (s : σ) :
    keysOf ((inOrderVisitor.VisitMetadata ⟨pre, post⟩ doc kind meta s).1).Targets =
      keysOf meta.Targets := by
  simp only [inOrderVisitor.VisitMetadata]
  exact (hpostMeta _ _).trans ((visitEach_keysOf _ _).trans (hpreMeta _ _))

theorem inOrder_services_keys {σ : Type} {pre post : Option (Visitor σ)}
    (doc : Document) (svcs : Services) (s : σ) :
    keysOf ((inOrderVisitor.VisitServices ⟨pre, post⟩ doc svcs s).1).Public =
      keysOf svcs.Public ∧
    keysOf ((inOrderVisitor.VisitServices ⟨pre, post⟩ doc svcs s).1).Private =
      keysOf svcs.Private := by
  constructor
  · simp only [inOrderVisitor.VisitServices]
    exact visitEach_keysOf _ _
  · simp only [inOrderVisitor.VisitServices]
    exact visitEach_keysOf _ _

theorem inOrder_stack_keys {σ : Type} {pre post : Option (Visitor σ)}
    (doc : Document)
    (hpreStack : ∀ st s,
      keysOf ((applyHook pre (fun o => o.VisitStack doc) st s).1).Metadata.Targets =
          keysOf st.Metadata.Targets ∧
        keysOf ((applyHook pre (fun o => o.VisitStack doc) st s).1).Parameters =
          keysOf st.Parameters ∧
        keysOf ((applyHook pre (fun o => o.VisitStack doc) st s).1).Dependencies =
          keysOf st.Dependencies ∧
        keysOf ((applyHook pre (fun o => o.VisitStack doc) st s).1).Services.Public =
          keysOf st.Services.Public ∧
        keysOf ((applyHook pre (fun o => o.VisitStack doc) st s).1).Services.Private =
          keysOf st.Services.Private)
    (hpostStack : ∀ st s,
      keysOf ((applyHook post (fun o => o.VisitStack doc) st s).1).Metadata.Targets =
          keysOf st.Metadata.Targets ∧
        keysOf ((applyHook post (fun o => o.VisitStack doc) st s).1).Parameters =
          keysOf st.Parameters ∧
        keysOf ((applyHook post (fun o => o.VisitStack doc) st s).1).Dependencies =
          keysOf st.Dependencies ∧
        keysOf ((applyHook post (fun o => o.VisitStack doc) st s).1).Services.Public =
          keysOf st.Services.Public ∧
        keysOf ((applyHook post (fun o => o.VisitStack doc) st s).1).Services.Private =
          keysOf st.Services.Private)
    (hpreMeta : ∀ meta s,
      keysOf ((applyHook pre (fun o => o.VisitMetadata doc "Stack") meta s).1).Targets =
        keysOf meta.Targets)
    (hpostMeta : ∀ meta s,
      keysOf ((applyHook post (fun o => o.VisitMetadata doc "Stack") meta s).1).Targets =
        keysOf meta.Targets)
    (stack : Stack) (s : σ) :
    keysOf ((inOrderVisitor.VisitStack ⟨pre, post⟩ doc stack s).1).Metadata.Targets =
        keysOf stack.Metadata.Targets ∧
      keysOf ((inOrderVisitor.VisitStack ⟨pre, post⟩ doc stack s).1).Parameters =
        keysOf stack.Parameters ∧
      keysOf ((inOrderVisitor.VisitStack ⟨pre, post⟩ doc stack s).1).Dependencies =
        keysOf stack.Dependencies ∧
      keysOf ((inOrderVisitor.VisitStack ⟨pre, post⟩ doc stack s).1).Services.Public =
        keysOf stack.Services.Public ∧
      keysOf ((inOrderVisitor.VisitStack ⟨pre, post⟩ doc stack s).1).Services.Private =
        keysOf stack.Services.Private := by
  refine ⟨?_, ?_, ?_, ?_, ?_⟩ <;> simp only [inOrderVisitor.VisitStack]
  · exact ((hpostStack _ _).1).trans
      ((inOrder_metadata_keys doc "Stack" hpreMeta hpostMeta _ _).trans
        ((hpreStack _ _).1))
  · exact ((hpostStack _ _).2.1).trans
      ((visitEach_keysOf _ _).trans ((hpreStack _ _).2.1))
  · exact ((hpostStack _ _).2.2.1).trans
      ((visitEach_keysOf _ _).trans ((hpreStack _ _).2.2.1))
  · exact ((hpostStack _ _).2.2.2.1).trans
      (((inOrder_services_keys doc _ _).1).trans ((hpreStack _ _).2.2.2.1))
  · exact ((hpostStack _ _).2.2.2.2).trans
      (((inOrder_services_keys doc _ _).2).trans ((hpreStack _ _).2.2.2.2))

/-- C10: provided each observer preserves the key sets of the mappings
reachable through the container records it is handed (its leaf-visiting
methods, which can only return the leaf record, are unrestricted), a
complete traversal preserves the key list of every mapping of the stack
graph: no key is added or removed — the engine only overwrites values at
keys that already existed. -/
theorem c10_key_set_preserved {σ : Type} (p q : Visitor σ) (doc : Document)
    (hpStack : ∀ st s,
      keysOf ((p.VisitStack doc st s).1).Metadata.Targets = keysOf st.Metadata.Targets ∧
        keysOf ((p.VisitStack doc st s).1).Parameters = keysOf st.Parameters ∧
        keysOf ((p.VisitStack doc st s).1).Dependencies = keysOf st.Dependencies ∧
        keysOf ((p.VisitStack doc st s).1).Services.Public = keysOf st.Services.Public ∧
        keysOf ((p.VisitStack doc st s).1).Services.Private = keysOf st.Services.Private)
    (hqStack : ∀ st s,
      keysOf ((q.VisitStack doc st s).1).Metadata.Targets = keysOf st.Metadata.Targets ∧
        keysOf ((q.VisitStack doc st s).1).Parameters = keysOf st.Parameters ∧
        keysOf ((q.VisitStack doc st s).1).Dependencies = keysOf st.Dependencies ∧
        keysOf ((q.VisitStack doc st s).1).Services.Public = keysOf st.Services.Public ∧
        keysOf ((q.VisitStack doc st s).1).Services.Private = keysOf st.Services.Private)
    (hpMeta : ∀ meta s,
      keysOf ((p.VisitMetadata doc "Stack" meta s).1).Targets = keysOf meta.Targets)
    (hqMeta : ∀ meta s,
      keysOf ((q.VisitMetadata doc "Stack" meta s).1).Targets = keysOf meta.Targets)
    (stack : Stack) (s : σ) :
    keysOf ((inOrderVisitor.VisitStack ⟨some p, some q⟩ doc stack s).1).Metadata.Targets =
        keysOf stack.Metadata.Targets ∧
      keysOf ((inOrderVisitor.VisitStack ⟨some p, some q⟩ doc stack s).1).Parameters =
        keysOf stack.Parameters ∧
      keysOf ((inOrderVisitor.VisitStack ⟨some p, some q⟩ doc stack s).1).Dependencies =
        keysOf stack.Dependencies ∧
      keysOf ((inOrderVisitor.VisitStack ⟨some p, some q⟩ doc stack s).1).Services.Public =
        keysOf stack.Services.Public ∧
      keysOf ((inOrderVisitor.VisitStack ⟨some p, some q⟩ doc stack s).1).Services.Private =
        keysOf stack.Services.Private :=
  @inOrder_stack_keys σ (some p) (some q) doc hpStack hqStack hpMeta hqMeta stack s

/-- C10 witness: with the logging observers (which leave every record
unchanged) the key lists of all five mappings of the concrete stack are
unchanged by a full traversal. -/
theorem c10_witness :
    keysOf ((inOrderVisitor.VisitStack
        ⟨some (logVisitor .pre), some (logVisitor .post)⟩ doc0 stackA []).1).Metadata.Targets =
        keysOf stackA.Metadata.Targets ∧
      keysOf ((inOrderVisitor.VisitStack
        ⟨some (logVisitor .pre), some (logVisitor .post)⟩ doc0 stackA []).1).Parameters =
        keysOf stackA.Parameters ∧
      keysOf ((inOrderVisitor.VisitStack
        ⟨some (logVisitor .pre), some (logVisitor .post)⟩ doc0 stackA []).1).Dependencies =
        keysOf stackA.Dependencies ∧
      keysOf ((inOrderVisitor.VisitStack
        ⟨some (logVisitor .pre), some (logVisitor .post)⟩ doc0 stackA []).1).Services.Public =
        keysOf stackA.Services.Public ∧
      keysOf ((inOrderVisitor.VisitStack
        ⟨some (logVisitor .pre), some (logVisitor .post)⟩ doc0 stackA []).1).Services.Private =
        keysOf stackA.Services.Private :=
  c10_key_set_preserved (logVisitor .pre) (logVisitor .post) doc0
    (fun _ _ => ⟨rfl, rfl, rfl, rfl, rfl⟩) (fun _ _ => ⟨rfl, rfl, rfl, rfl, rfl⟩)
    (fun _ _ => rfl) (fun _ _ => rfl) stackA []

end Mu
